import Mathlib

/-!
Shallow embedding of the `.npz` view engine of `ndarray-npz` (`src/lib.rs`):
the immutable (`NpzView`) and mutable (`NpzViewMut`) archive views, the
per-entry range resolution, the one-pass buffer split, and the per-handle
CRC-32 checksum state machine (`NpyView`/`NpyViewMut`).

Bytes are modelled as `List Nat` (each element a byte value), `usize`
arithmetic as `Nat` with explicit `2 ^ 64` overflow checks mirroring
`try_into`/`checked_add`, fallible code as `Except`, and code that can hit a
Rust `unwrap` panic as the `Outcome` type with a distinguished `panic` value.
The zip container parser is an external collaborator: it hands the loop of
`NpzView::new`/`NpzViewMut::new` one record per zip entry (name, password
flag, directory flag, compression method, and the header/data/central
offsets); those records are the `RawEntry` inputs of the embedded
constructors.
-/

namespace NdarrayNpz

/-- Upper bound of `usize` arithmetic plus one: values must stay below `2 ^ 64`. -/
def usizeBound : Nat := 2 ^ 64

/-- Checksum status of an `NpyView` or `NpyViewMut` (enum `ChecksumStatus`). -/
inductive ChecksumStatus
  /-- The checksum has not been computed and the data has not changed. -/
  | unverified
  /-- The checksum is correct and the data has not changed. -/
  | correct
  /-- The data may have changed. -/
  | outdated
deriving DecidableEq, Repr

/-- Default checksum status is `Unverified` (`impl Default for ChecksumStatus`). -/
def ChecksumStatus.init : ChecksumStatus := .unverified

/-- Errors of the view engine: the `ViewNpzError` variants reachable from the
viewed paths together with the embedded `ZipError` values they wrap, each
`invalidArchive*` constructor standing for `ZipError::InvalidArchive` with the
corresponding message string. -/
inductive ViewErr
  /-- ZipError::InvalidArchive "Range overflow" (from `range_at`). -/
  | rangeOverflow
  /-- ZipError::InvalidArchive "Range exceeds EOF" (from `slice_at`). -/
  | rangeExceedsEOF
  /-- ZipError::InvalidArchive "Overlapping ranges" (split pass). -/
  | overlappingRanges
  /-- ZipError::InvalidArchive "Offset exceeds EOF" (split pass, first bound check). -/
  | offsetExceedsEOF
  /-- ZipError::InvalidArchive "Length exceeds EOF" (split pass, second bound check). -/
  | lengthExceedsEOF
  /-- ZipError::InvalidArchive "Ambiguous CRC-32 location in data descriptor". -/
  | ambiguousCrc32Location
  /-- ZipError::InvalidArchive "Ambiguous offsets" (reassembly after the split pass). -/
  | ambiguousOffsets
  /-- ZipError::FileNotFound. -/
  | fileNotFound
  /-- ViewNpzError::MovedNpyViewMut. -/
  | movedNpyViewMut
  /-- ViewNpzError::Directory. -/
  | directory
  /-- ViewNpzError::CompressedFile. -/
  | compressedFile
  /-- ViewNpzError::EncryptedFile. -/
  | encryptedFile
  /-- ZipError::Io "Invalid checksum" (from `crc32_verify`). -/
  | invalidChecksum
deriving DecidableEq, Repr

/-- Outcome of a computation that can return a value, fail with an error, or
hit a Rust `unwrap` panic. -/
inductive Outcome (α : Type)
  /-- Normal return. -/
  | ok (a : α)
  /-- Error return (a `Result::Err`). -/
  | err (e : ViewErr)
  /-- A Rust panic (an `unwrap` of `None`). -/
  | panic
deriving DecidableEq, Repr

/-- Little-endian value of a byte list (`u16::from_le_bytes`/`u32::from_le_bytes`). -/
def fromLEBytes : List Nat → Nat
  | [] => 0
  | b :: bs => b % 256 + 256 * fromLEBytes bs

/-- The four little-endian bytes of a 32-bit value (`u32::to_le_bytes`). -/
def toLEBytes4 (x : Nat) : List Nat :=
  [x % 256, x / 256 % 256, x / 65536 % 256, x / 16777216 % 256]

/-- Rust `bytes.get(start..stop)` on a byte slice: `some` of the sub-slice when
`start ≤ stop ≤ bytes.len()`, otherwise `none`. -/
def sliceGet (bytes : List Nat) (start stop : Nat) : Option (List Nat) :=
  if start ≤ stop ∧ stop ≤ bytes.length then some ((bytes.drop start).take (stop - start))
  else none

/-- Embedding of `range_at`: shifts `rstart..rstop` by `index`, validating every
`try_into::<usize>` and `checked_add` against `usizeBound`; on overflow fails
with `ZipError::InvalidArchive("Range overflow")`. -/
def range_at (index rstart rstop : Nat) : Except ViewErr (Nat × Nat) :=
  if index < usizeBound ∧ rstart < usizeBound ∧ rstart + index < usizeBound
      ∧ rstop < usizeBound ∧ rstop + index < usizeBound then
    .ok (rstart + index, rstop + index)
  else
    .error .rangeOverflow

/-- Embedding of `slice_at`: `range_at` followed by a bounds-checked read that
fails with `ZipError::InvalidArchive("Range exceeds EOF")` when out of bounds. -/
def slice_at (bytes : List Nat) (index rstart rstop : Nat) : Except ViewErr (List Nat) :=
  match range_at index rstart rstop with
  | .error er => .error er
  | .ok (s, t) =>
    match sliceGet bytes s t with
    | some l => .ok l
    | none => .error .rangeExceedsEOF

/-- Embedding of `u16_at`: `bytes.get(range).unwrap()` then `u16::from_le_bytes`;
`none` models the panic of the `unwrap` on an out-of-bounds range. -/
def u16_at (bytes : List Nat) (s t : Nat) : Option Nat :=
  (sliceGet bytes s t).bind fun l => if l.length = 2 then some (fromLEBytes l) else none

/-- Embedding of `u32_at`: `bytes.get(range).unwrap()` then `u32::from_le_bytes`;
`none` models the panic of the `unwrap` on an out-of-bounds range. -/
def u32_at (bytes : List Nat) (s t : Nat) : Option Nat :=
  (sliceGet bytes s t).bind fun l => if l.length = 4 then some (fromLEBytes l) else none

/-- Embedding of `as_array_ref`/`as_array_mut`: the `try_into().unwrap()` to
`[u8; 4]`; `none` models the panic when the slice is not 4 bytes long. -/
def as_array4 (l : List Nat) : Option (List Nat) :=
  if l.length = 4 then some l else none

/-- CRC-32 (IEEE) reflected polynomial, the checksum primitive of `crc32fast`. -/
def crc32Poly : Nat := 0xEDB88320

/-- One bit round of the CRC-32 computation. -/
def crc32Round (c : Nat) : Nat :=
  if c % 2 = 1 then (c / 2) ^^^ crc32Poly else c / 2

/-- Eight bit rounds, consuming one byte previously xor-ed into the state. -/
def crc32Byte (c : Nat) : Nat :=
  crc32Round (crc32Round (crc32Round (crc32Round
    (crc32Round (crc32Round (crc32Round (crc32Round c)))))))

/-- Fold step of the CRC-32 computation over one input byte. -/
def crc32Step (c b : Nat) : Nat := crc32Byte (c ^^^ b % 256)

/-- Embedding of `crc32_update`: the streaming CRC-32 checksum of a byte list,
recomputed from scratch on every call (the `crc32fast::Hasher` primitive). -/
def crc32_update (bytes : List Nat) : Nat :=
  (bytes.foldl crc32Step 0xFFFFFFFF) ^^^ 0xFFFFFFFF

/-- Embedding of `crc32_verify`: parses the stored little-endian checksum,
compares it with the recomputed one, and returns the value on a match or
`ZipError::Io("Invalid checksum")` on a mismatch. -/
def crc32_verify (bytes crc32Bytes : List Nat) : Except ViewErr Nat :=
  let crc32 := fromLEBytes crc32Bytes
  if crc32_update bytes = crc32 then .ok crc32 else .error .invalidChecksum

/-- One zip entry as the external container parser reports it to the
construction loops: name, password-required signal, directory flag, whether the
compression method is `Stored`, and the absolute offsets and declared size. -/
structure RawEntry where
  /-- Entry name (`file.name()`). -/
  name : String
  /-- Whether `zip.by_index` fails with `PASSWORD_REQUIRED` for this entry. -/
  passwordRequired : Bool
  /-- Whether the entry is a directory (`file.is_dir()`). -/
  isDir : Bool
  /-- Whether the compression method is `Stored` (`file.compression()`). -/
  isStored : Bool
  /-- Local header start (`file.header_start()`). -/
  headerStart : Nat
  /-- Data start (`file.data_start()`). -/
  dataStart : Nat
  /-- Declared size (`file.size()`). -/
  size : Nat
  /-- Central directory entry start (`file.central_header_start()`). -/
  centralHeaderStart : Nat
deriving DecidableEq, Repr

/-- An entry is viewable when it is neither encrypted, nor a directory, nor
compressed. -/
def RawEntry.viewable (e : RawEntry) : Prop :=
  e.passwordRequired = false ∧ e.isDir = false ∧ e.isStored = true

instance (e : RawEntry) : Decidable e.viewable := by
  unfold RawEntry.viewable; infer_instance

/-- HashMap insert: replaces the value of an existing key, else appends. -/
def hmInsert {α β : Type} [DecidableEq α] (k : α) (v : β) : List (α × β) → List (α × β)
  | [] => [(k, v)]
  | (k1, v1) :: rest => if k = k1 then (k, v) :: rest else (k1, v1) :: hmInsert k v rest

/-- HashMap lookup. -/
def hmGet {α β : Type} [DecidableEq α] (k : α) : List (α × β) → Option β
  | [] => none
  | (k1, v1) :: rest => if k = k1 then some v1 else hmGet k rest

/-- HashMap remove: the removed value and the remaining map, or `none` when the
key is absent. -/
def hmRemove {α β : Type} [DecidableEq α] (k : α) : List (α × β) → Option (β × List (α × β))
  | [] => none
  | (k1, v1) :: rest =>
    if k = k1 then some (v1, rest)
    else
      match hmRemove k rest with
      | none => none
      | some (w, rest1) => some (w, (k1, v1) :: rest1)

/-- HashSet insert for name sets. -/
def setInsert (s : String) (l : List String) : List String :=
  if s ∈ l then l else l ++ [s]

/-- BTreeMap insert keyed by `Nat`: keeps keys strictly sorted, replacing the
value of an existing key (the `splits` map of `NpzViewMut::new`). -/
def btreeInsert (k v : Nat) : List (Nat × Nat) → List (Nat × Nat)
  | [] => [(k, v)]
  | (k1, v1) :: rest =>
    if k < k1 then (k, v) :: (k1, v1) :: rest
    else if k = k1 then (k, v) :: rest
    else (k1, v1) :: btreeInsert k v rest

/-- Immutable view of one memory-mapped `.npy` file (`NpyView`): its data
slice, the four bytes of the central CRC-32 field, and the checksum status. -/
structure NpyViewS where
  /-- The entry's data slice. -/
  data : List Nat
  /-- The four bytes of the central directory CRC-32 field. -/
  central_crc32 : List Nat
  /-- The checksum status. -/
  status : ChecksumStatus
deriving DecidableEq, Repr

/-- Embedding of `NpyView::verify`: pessimistically sets the status to
`Outdated`, recomputes the checksum of the data slice, compares it against the
central CRC-32 field only, and on a match sets the status to `Correct` and
returns the value. -/
def NpyViewS.verify (v : NpyViewS) : NpyViewS × Except ViewErr Nat :=
  let v1 : NpyViewS := { v with status := .outdated }
  match crc32_verify v1.data v1.central_crc32 with
  | .ok crc32 => ({ v1 with status := .correct }, .ok crc32)
  | .error er => (v1, .error er)

/-- Mutable view of one memory-mapped `.npy` file (`NpyViewMut`): its data
slice, the four bytes of the local CRC-32 field, the four bytes of the central
CRC-32 field, and the checksum status. -/
structure NpyViewMutS where
  /-- The entry's data slice. -/
  data : List Nat
  /-- The four bytes of the local CRC-32 field (header or data descriptor). -/
  crc32 : List Nat
  /-- The four bytes of the central directory CRC-32 field. -/
  central_crc32 : List Nat
  /-- The checksum status. -/
  status : ChecksumStatus
deriving DecidableEq, Repr

/-- Embedding of `NpyViewMut::verify`: pessimistically sets the status to
`Outdated`, recomputes the checksum of the data slice, compares it against the
central CRC-32 field only, and on a match sets the status to `Correct` and
returns the value. -/
def NpyViewMutS.verify (v : NpyViewMutS) : NpyViewMutS × Except ViewErr Nat :=
  let v1 : NpyViewMutS := { v with status := .outdated }
  match crc32_verify v1.data v1.central_crc32 with
  | .ok crc32 => ({ v1 with status := .correct }, .ok crc32)
  | .error er => (v1, .error er)

/-- Embedding of `NpyViewMut::update`: sets the status to `Correct`, recomputes
the checksum of the data slice, writes its little-endian bytes into the central
CRC-32 field and copies the central field into the local one, and returns the
value. -/
def NpyViewMutS.update (v : NpyViewMutS) : NpyViewMutS × Nat :=
  let crc32 := crc32_update v.data
  ({ v with status := .correct,
            central_crc32 := toLEBytes4 crc32,
            crc32 := toLEBytes4 crc32 },
    crc32)

/-- Embedding of the status side effect of `NpyViewMut::view_mut`: the status
becomes `Outdated` unconditionally before the array codec runs. -/
def NpyViewMutS.viewMutEffect (v : NpyViewMutS) : NpyViewMutS :=
  { v with status := .outdated }

/-- Embedding of `impl Drop for NpyViewMut`: when the handle's scope ends,
`update` runs iff the status is `Outdated` at that moment. -/
def NpyViewMutS.dropHook (v : NpyViewMutS) : NpyViewMutS :=
  if v.status = .outdated then (v.update).1 else v

/-- Immutable archive view (`NpzView`): file views keyed by dense index, the
name-to-index map, and the three diagnostic name sets. -/
structure NpzViewS where
  /-- File views keyed by dense index. -/
  files : List (Nat × NpyViewS)
  /-- Name-to-dense-index map. -/
  names : List (String × Nat)
  /-- Names classified as directories. -/
  directoryNames : List String
  /-- Names classified as compressed. -/
  compressedNames : List String
  /-- Names classified as encrypted. -/
  encryptedNames : List String
deriving DecidableEq, Repr

/-- Embedding of `NpzView::by_index`: a plain lookup that copies the view out,
failing with `ZipError::FileNotFound` when the index has no view. -/
def NpzViewS.by_index (a : NpzViewS) (index : Nat) : Except ViewErr NpyViewS :=
  match hmGet index a.files with
  | some v => .ok v
  | none => .error .fileNotFound

/-- Embedding of `NpzView::by_name`: resolves the name through the index map,
else reports the classification of the name or `ZipError::FileNotFound`. -/
def NpzViewS.by_name (a : NpzViewS) (name : String) : Except ViewErr NpyViewS :=
  match hmGet name a.names with
  | some index => a.by_index index
  | none =>
    .error (if a.directoryNames.contains name then .directory
      else if a.compressedNames.contains name then .compressedFile
      else if a.encryptedNames.contains name then .encryptedFile
      else .fileNotFound)

/-- Mutable archive view (`NpzViewMut`): not-yet-retrieved mutable file views
keyed by dense index, the name-to-index map, and the three diagnostic name
sets. -/
structure NpzViewMutS where
  /-- Not-yet-retrieved mutable file views keyed by dense index. -/
  files : List (Nat × NpyViewMutS)
  /-- Name-to-dense-index map. -/
  names : List (String × Nat)
  /-- Names classified as directories. -/
  directoryNames : List String
  /-- Names classified as compressed. -/
  compressedNames : List String
  /-- Names classified as encrypted. -/
  encryptedNames : List String
deriving DecidableEq, Repr

/-- Embedding of `NpzViewMut::by_index`: rejects `index > names.len()` with
`ZipError::FileNotFound`, otherwise removes the view from the table, failing
with `ViewNpzError::MovedNpyViewMut` when it was already removed. -/
def NpzViewMutS.by_index (a : NpzViewMutS) (index : Nat) :
    NpzViewMutS × Except ViewErr NpyViewMutS :=
  if a.names.length < index then (a, .error .fileNotFound)
  else
    match hmRemove index a.files with
    | some (v, files1) => ({ a with files := files1 }, .ok v)
    | none => (a, .error .movedNpyViewMut)

/-- Embedding of `NpzViewMut::by_name`: resolves the name through the index map
and delegates to `by_index`, else reports the classification of the name or
`ZipError::FileNotFound`. -/
def NpzViewMutS.by_name (a : NpzViewMutS) (name : String) :
    NpzViewMutS × Except ViewErr NpyViewMutS :=
  match hmGet name a.names with
  | some index => a.by_index index
  | none =>
    (a, .error (if a.directoryNames.contains name then .directory
      else if a.compressedNames.contains name then .compressedFile
      else if a.encryptedNames.contains name then .encryptedFile
      else .fileNotFound))

/-- A half-open byte range as a pair of absolute offsets. -/
abbrev NRange := Nat × Nat

/-- The three ranges recorded per viewable entry by `NpzViewMut::new`: the data
range, the resolved local CRC-32 range, and the central CRC-32 range. -/
abbrev Range3 := NRange × NRange × NRange

/-- The data descriptor signature constant `0x0807_4b50`. -/
def descriptorSignature : Nat := 0x08074b50

/-- Embedding of the per-entry range resolution of `NpzViewMut::new` (its loop
body after classification): computes the data range, reads the central general
purpose bit flag, computes the central CRC-32 range, and resolves the local
CRC-32 location; when bit 3 of the flag is set the checksum lives at the end of
the data unless those four bytes spell the data descriptor signature, in which
case a collision with the central CRC-32 value is `InvalidArchive("Ambiguous
CRC-32 location in data descriptor")` and otherwise the checksum starts four
bytes later. -/
def entryRangesM (bytes : List Nat) (e : RawEntry) : Outcome Range3 :=
  match range_at e.dataStart 0 e.size with
  | .error er => .err er
  | .ok dataRange =>
    match range_at e.centralHeaderStart 8 10 with
    | .error er => .err er
    | .ok centralFlagRange =>
      match u16_at bytes centralFlagRange.1 centralFlagRange.2 with
      | none => .panic
      | some centralFlag =>
        match range_at e.centralHeaderStart 16 20 with
        | .error er => .err er
        | .ok centralCrc32Range =>
          if centralFlag.testBit 3 then
            match range_at dataRange.2 0 4 with
            | .error er => .err er
            | .ok crc32Range =>
              match u32_at bytes crc32Range.1 crc32Range.2 with
              | none => .panic
              | some crc32 =>
                if crc32 = descriptorSignature then
                  match u32_at bytes centralCrc32Range.1 centralCrc32Range.2 with
                  | none => .panic
                  | some centralCrc32 =>
                    if crc32 = centralCrc32 then .err .ambiguousCrc32Location
                    else
                      match range_at dataRange.2 4 8 with
                      | .error er => .err er
                      | .ok postRange => .ok (dataRange, postRange, centralCrc32Range)
                else .ok (dataRange, crc32Range, centralCrc32Range)
          else
            match range_at e.headerStart 14 18 with
            | .error er => .err er
            | .ok headerRange => .ok (dataRange, headerRange, centralCrc32Range)

/-- Accumulator of the entry scan loop of `NpzViewMut::new`. -/
structure ScanState where
  /-- Name-to-dense-index map built so far. -/
  names : List (String × Nat)
  /-- Directory names seen so far. -/
  directoryNames : List String
  /-- Compressed names seen so far. -/
  compressedNames : List String
  /-- Names still assumed encrypted. -/
  encryptedNames : List String
  /-- The three ranges of each viewable entry, keyed by dense index. -/
  ranges : List (Nat × Range3)
  /-- The `BTreeMap` of range starts to range ends. -/
  splits : List (Nat × Nat)
  /-- The next dense index. -/
  index : Nat
deriving DecidableEq, Repr

/-- Initial scan state: every name starts out assumed encrypted
(`zip.file_names().collect()`). -/
def initScan (entries : List RawEntry) : ScanState :=
  { names := [], directoryNames := [], compressedNames := [],
    encryptedNames := entries.foldl (fun s e => setInsert e.name s) [],
    ranges := [], splits := [], index := 0 }

/-- Embedding of the scan loop of `NpzViewMut::new`: skips encrypted entries,
classifies directories and compressed entries, and for each viewable entry
records its name, its three resolved ranges, and their starts in the splits
map (local CRC-32 first, then data, then central CRC-32). -/
def scanEntriesM (bytes : List Nat) : List RawEntry → ScanState → Outcome ScanState
  | [], st => .ok st
  | e :: rest, st =>
    if e.passwordRequired then scanEntriesM bytes rest st
    else
      let st1 : ScanState := { st with encryptedNames := st.encryptedNames.erase e.name }
      if e.isDir then
        scanEntriesM bytes rest
          { st1 with directoryNames := setInsert e.name st1.directoryNames }
      else if e.isStored = false then
        scanEntriesM bytes rest
          { st1 with compressedNames := setInsert e.name st1.compressedNames }
      else
        let st2 : ScanState := { st1 with names := hmInsert e.name st1.index st1.names }
        match entryRangesM bytes e with
        | .err er => .err er
        | .panic => .panic
        | .ok (dataRange, crc32Range, centralCrc32Range) =>
          scanEntriesM bytes rest
            { st2 with
                splits := btreeInsert centralCrc32Range.1 centralCrc32Range.2
                  (btreeInsert dataRange.1 dataRange.2
                    (btreeInsert crc32Range.1 crc32Range.2 st2.splits)),
                ranges := st2.ranges ++ [(st2.index, (dataRange, crc32Range, centralCrc32Range))],
                index := st2.index + 1 }

/-- Embedding of the split pass of `NpzViewMut::new`: walks the splits in
ascending order of start with a cursor (`offset`); for each range it splits off
the prefix before `start` (failing with `InvalidArchive("Overlapping ranges")`
when `start` precedes the cursor and with `InvalidArchive("Offset exceeds
EOF")` when the prefix is longer than the remaining buffer), then splits off
the slice of interest (failing with `InvalidArchive("Length exceeds EOF")` when
it is longer than what remains), recording it under its start. -/
def splitPass (buf : List Nat) (offset : Nat) :
    List (Nat × Nat) → Except ViewErr (List (Nat × List Nat))
  | [] => .ok []
  | (s, e) :: rest =>
    if s < offset then .error .overlappingRanges
    else
      let mid := s - offset
      if buf.length < mid then .error .offsetExceedsEOF
      else
        let buf1 := buf.drop mid
        let mid2 := e - s
        if buf1.length < mid2 then .error .lengthExceedsEOF
        else
          match splitPass (buf1.drop mid2) (s + mid2) rest with
          | .error er => .error er
          | .ok slices => .ok ((s, buf1.take mid2) :: slices)

/-- Embedding of the reassembly loop of `NpzViewMut::new`: for each entry, its
data, local CRC-32 and central CRC-32 slices are removed from the split map by
their recorded starts; a missing start fails with `InvalidArchive("Ambiguous
offsets")`, and the two checksum slices pass through the `[u8; 4]` conversion
(`as_array_mut`, a panic when not 4 bytes). -/
def collectViews : List (Nat × List Nat) → List (Nat × Range3) →
    Outcome (List (Nat × NpyViewMutS))
  | _, [] => .ok []
  | slices, (index, (dataRange, crc32Range, centralCrc32Range)) :: rest =>
    match hmRemove dataRange.1 slices with
    | none => .err .ambiguousOffsets
    | some (dataSlice, slices1) =>
      match hmRemove crc32Range.1 slices1 with
      | none => .err .ambiguousOffsets
      | some (crc32Slice, slices2) =>
        match as_array4 crc32Slice with
        | none => .panic
        | some crc32Arr =>
          match hmRemove centralCrc32Range.1 slices2 with
          | none => .err .ambiguousOffsets
          | some (centralSlice, slices3) =>
            match as_array4 centralSlice with
            | none => .panic
            | some centralArr =>
              match collectViews slices3 rest with
              | .err er => .err er
              | .panic => .panic
              | .ok files =>
                .ok ((index, ⟨dataSlice, crc32Arr, centralArr, .unverified⟩) :: files)

/-- Embedding of `NpzViewMut::new` after the zip parse: the scan loop, the
split pass starting at cursor 0, and the reassembly of the file views. Any
error aborts the whole construction. -/
def newM (bytes : List Nat) (entries : List RawEntry) : Outcome NpzViewMutS :=
  match scanEntriesM bytes entries (initScan entries) with
  | .err er => .err er
  | .panic => .panic
  | .ok st =>
    match splitPass bytes 0 st.splits with
    | .error er => .err er
    | .ok slices =>
      match collectViews slices st.ranges with
      | .err er => .err er
      | .panic => .panic
      | .ok files =>
        .ok { files := files, names := st.names, directoryNames := st.directoryNames,
              compressedNames := st.compressedNames, encryptedNames := st.encryptedNames }

/-- Embedding of the scan loop of `NpzView::new`: skips encrypted entries,
classifies directories and compressed entries, and for each viewable entry
reads its data slice and the four bytes of its central CRC-32 field directly
(`slice_at`), never touching the general purpose bit flag or a trailing data
descriptor. -/
def scanEntriesI (bytes : List Nat) : List RawEntry → NpzViewS → Nat → Outcome NpzViewS
  | [], a, _ => .ok a
  | e :: rest, a, index =>
    if e.passwordRequired then scanEntriesI bytes rest a index
    else
      let a1 : NpzViewS := { a with encryptedNames := a.encryptedNames.erase e.name }
      if e.isDir then
        scanEntriesI bytes rest
          { a1 with directoryNames := setInsert e.name a1.directoryNames } index
      else if e.isStored = false then
        scanEntriesI bytes rest
          { a1 with compressedNames := setInsert e.name a1.compressedNames } index
      else
        let a2 : NpzViewS := { a1 with names := hmInsert e.name index a1.names }
        match slice_at bytes e.dataStart 0 e.size with
        | .error er => .err er
        | .ok dataSlice =>
          match slice_at bytes e.centralHeaderStart 16 20 with
          | .error er => .err er
          | .ok centralSlice =>
            match as_array4 centralSlice with
            | none => .panic
            | some centralArr =>
              scanEntriesI bytes rest
                { a2 with files := a2.files ++ [(index, ⟨dataSlice, centralArr, .unverified⟩)] }
                (index + 1)

/-- Embedding of `NpzView::new` after the zip parse: one scan over the entries,
with every name initially assumed encrypted. -/
def newI (bytes : List Nat) (entries : List RawEntry) : Outcome NpzViewS :=
  scanEntriesI bytes entries
    { files := [], names := [], directoryNames := [], compressedNames := [],
      encryptedNames := entries.foldl (fun s e => setInsert e.name s) [] } 0

/-- Validity of a splits list for the split pass over a remaining buffer of
`bufLen` bytes with the cursor at `offset`: each range must start at or after
the cursor, its prefix and its body must fit in what remains of the buffer,
and the rest must be valid after the cursor advances past the range. -/
def ValidSplits : Nat → Nat → List (Nat × Nat) → Prop
  | _, _, [] => True
  | bufLen, offset, (s, e) :: rest =>
    offset ≤ s ∧ s - offset ≤ bufLen ∧ e - s ≤ bufLen - (s - offset) ∧
      ValidSplits (bufLen - (s - offset) - (e - s)) (s + (e - s)) rest

/-- A 24-byte buffer whose single stored entry keeps its checksum in a data
descriptor whose literal value spells the descriptor signature and collides
with the central CRC-32 value: bytes 0..3 and 20..23 are the little-endian
signature `0x08074b50`, bytes 12..13 are the general purpose bit flag with bit
3 set. -/
def ambBytes : List Nat :=
  [0x50, 0x4b, 0x07, 0x08, 0, 0, 0, 0, 0, 0, 0, 0,
   0x08, 0x00, 0, 0, 0, 0, 0, 0, 0x50, 0x4b, 0x07, 0x08]

/-- The stored zero-size entry of `ambBytes`: data at `[0, 0)`, central
directory entry at offset 4 (so its flag is at 12..14 and its central CRC-32 at
20..24). -/
def ambEntry : RawEntry :=
  { name := "b", passwordRequired := false, isDir := false, isStored := true,
    headerStart := 0, dataStart := 0, size := 0, centralHeaderStart := 4 }

/-- A stored entry whose data range `[1000, 1000)` lies beyond `ambBytes`, with
its central directory entry at offset 0 (flag bytes 8..9 are clear). -/
def oobEntry : RawEntry :=
  { name := "a", passwordRequired := false, isDir := false, isStored := true,
    headerStart := 0, dataStart := 1000, size := 0, centralHeaderStart := 0 }

/-- A stored entry whose central flag read at 8..10 falls outside an empty
buffer: `NpzViewMut::new` reaches the `u16_at` unwrap and panics on it. -/
def panicEntry : RawEntry :=
  { name := "p", passwordRequired := false, isDir := false, isStored := true,
    headerStart := 0, dataStart := 0, size := 0, centralHeaderStart := 0 }

/-- A mutable file view with two data bytes, placeholder checksum fields and
unverified status, used to instantiate the handle theorems. -/
def sampleViewMut : NpyViewMutS :=
  { data := [1, 2], crc32 := [0, 0, 0, 0], central_crc32 := [0, 0, 0, 0],
    status := .unverified }

/-- A one-entry mutable archive holding `sampleViewMut` under index 0 and name
`x`. -/
def sampleArchiveMut : NpzViewMutS :=
  { files := [(0, sampleViewMut)], names := [("x", 0)], directoryNames := [],
    compressedNames := [], encryptedNames := [] }

/-- The archive `sampleArchiveMut` after its only handle has been moved out. -/
def sampleArchiveMutMoved : NpzViewMutS :=
  { files := [], names := [("x", 0)], directoryNames := [],
    compressedNames := [], encryptedNames := [] }

/-- The empty mutable archive, as `NpzViewMut::new` builds it from no entries. -/
def emptyArchiveMut : NpzViewMutS :=
  { files := [], names := [], directoryNames := [], compressedNames := [],
    encryptedNames := [] }

/-- The immutable archive `NpzView::new` builds from `ambBytes` and `ambEntry`:
one viewable entry with empty data and the signature bytes as central CRC-32. -/
def ambArchiveI : NpzViewS :=
  { files := [(0, ⟨[], [80, 75, 7, 8], ChecksumStatus.unverified⟩)],
    names := [("b", 0)], directoryNames := [], compressedNames := [],
    encryptedNames := [] }

/-- Decoding the four little-endian bytes of a 32-bit value gives it back. -/
theorem fromLE_toLEBytes4 (x : Nat) (h : x < 2 ^ 32) : fromLEBytes (toLEBytes4 x) = x := by
  simp only [toLEBytes4, fromLEBytes]
  omega

/-- One CRC-32 bit round stays below `2 ^ 32`. -/
theorem crc32Round_lt (c : Nat) (h : c < 2 ^ 32) : crc32Round c < 2 ^ 32 := by
  unfold crc32Round crc32Poly
  split
  · exact Nat.xor_lt_two_pow (by omega) (by norm_num)
  · omega

/-- Eight CRC-32 bit rounds stay below `2 ^ 32`. -/
theorem crc32Byte_lt (c : Nat) (h : c < 2 ^ 32) : crc32Byte c < 2 ^ 32 :=
  crc32Round_lt _ (crc32Round_lt _ (crc32Round_lt _ (crc32Round_lt _
    (crc32Round_lt _ (crc32Round_lt _ (crc32Round_lt _ (crc32Round_lt _ h)))))))

/-- One CRC-32 fold step stays below `2 ^ 32`. -/
theorem crc32Step_lt (c b : Nat) (h : c < 2 ^ 32) : crc32Step c b < 2 ^ 32 :=
  crc32Byte_lt _ (Nat.xor_lt_two_pow h (by have := Nat.mod_lt b (show 0 < 256 by norm_num); omega))

/-- The CRC-32 fold stays below `2 ^ 32`. -/
theorem crc32_foldl_lt (bytes : List Nat) (c : Nat) (h : c < 2 ^ 32) :
    bytes.foldl crc32Step c < 2 ^ 32 := by
  induction bytes generalizing c with
  | nil => simpa using h
  | cons b bs ih => exact ih _ (crc32Step_lt _ _ h)

/-- The checksum is a 32-bit value. -/
theorem crc32_update_lt (bytes : List Nat) : crc32_update bytes < 2 ^ 32 :=
  Nat.xor_lt_two_pow (crc32_foldl_lt bytes _ (by norm_num)) (by norm_num)

/-- Looking up an absent key gives `none`. -/
theorem hmGet_eq_none_of_not_mem {α β : Type} [DecidableEq α] (k : α) (l : List (α × β))
    (h : k ∉ l.map Prod.fst) : hmGet k l = none := by
  induction l with
  | nil => rfl
  | cons p rest ih =>
    obtain ⟨k1, v1⟩ := p
    simp only [List.map_cons, List.mem_cons] at h
    push_neg at h
    simp only [hmGet, if_neg h.1]
    exact ih h.2

/-- Removal fails exactly when lookup does. -/
theorem hmRemove_eq_none_iff {α β : Type} [DecidableEq α] (k : α) (l : List (α × β)) :
    hmRemove k l = none ↔ hmGet k l = none := by
  induction l with
  | nil => simp [hmRemove, hmGet]
  | cons p rest ih =>
    obtain ⟨k1, v1⟩ := p
    by_cases hk : k = k1
    · simp [hmRemove, hmGet, hk]
    · simp only [hmRemove, hmGet, if_neg hk]
      cases hrec : hmRemove k rest with
      | none => simpa [hrec] using ih
      | some pair => simp only [hrec] at ih ⊢; simpa using ih

/-- After removing a key from a map without repeated keys, the key is gone. -/
theorem hmGet_after_hmRemove {α β : Type} [DecidableEq α] (k : α) (l : List (α × β))
    (hnd : (l.map Prod.fst).Nodup) (v : β) (l1 : List (α × β))
    (h : hmRemove k l = some (v, l1)) : hmGet k l1 = none := by
  induction l generalizing l1 with
  | nil => simp [hmRemove] at h
  | cons p rest ih =>
    obtain ⟨k1, v1⟩ := p
    simp only [List.map_cons, List.nodup_cons] at hnd
    by_cases hk : k = k1
    · simp only [hmRemove, if_pos hk] at h
      obtain ⟨-, rfl⟩ := Prod.mk.injEq .. ▸ Option.some.injEq .. ▸ h
      subst hk
      exact hmGet_eq_none_of_not_mem k rest hnd.1
    · simp only [hmRemove, if_neg hk] at h
      cases hrec : hmRemove k rest with
      | none => rw [hrec] at h; exact absurd h (by simp)
      | some pair =>
        obtain ⟨w, rest1⟩ := pair
        rw [hrec] at h
        simp only [Option.some.injEq, Prod.mk.injEq] at h
        obtain ⟨hw, hl1⟩ := h
        subst hl1
        simp only [hmGet, if_neg hk]
        exact ih hnd.2 rest1 (hw ▸ hrec)

/-- A `sliceGet` within bounds returns the sub-slice. -/
theorem sliceGet_some (bytes : List Nat) (s t : Nat) (h1 : s ≤ t) (h2 : t ≤ bytes.length) :
    sliceGet bytes s t = some ((bytes.drop s).take (t - s)) := by
  unfold sliceGet
  rw [if_pos ⟨h1, h2⟩]

/-- Length of an in-bounds sub-slice. -/
theorem length_drop_take (bytes : List Nat) (s t : Nat) (h2 : t ≤ bytes.length) :
    ((bytes.drop s).take (t - s)).length = t - s := by
  simp only [List.length_take, List.length_drop]
  omega

/-- An in-bounds two-byte read succeeds with the little-endian value. -/
theorem u16_at_some (bytes : List Nat) (s : Nat) (h2 : s + 2 ≤ bytes.length) :
    u16_at bytes s (s + 2) = some (fromLEBytes ((bytes.drop s).take 2)) := by
  have ht : s + 2 - s = 2 := by omega
  have h := sliceGet_some bytes s (s + 2) (by omega) h2
  rw [ht] at h
  have hlen : ((bytes.drop s).take 2).length = 2 := by
    have := length_drop_take bytes s (s + 2) h2
    rwa [ht] at this
  unfold u16_at
  rw [h]
  simp [hlen]

/-- An in-bounds four-byte read succeeds with the little-endian value. -/
theorem u32_at_some (bytes : List Nat) (s : Nat) (h2 : s + 4 ≤ bytes.length) :
    u32_at bytes s (s + 4) = some (fromLEBytes ((bytes.drop s).take 4)) := by
  have ht : s + 4 - s = 4 := by omega
  have h := sliceGet_some bytes s (s + 4) (by omega) h2
  rw [ht] at h
  have hlen : ((bytes.drop s).take 4).length = 4 := by
    have := length_drop_take bytes s (s + 4) h2
    rwa [ht] at this
  unfold u32_at
  rw [h]
  simp [hlen]

/-- A `range_at` whose sums stay below the `usize` bound succeeds. -/
theorem range_at_ok (index rstart rstop : Nat) (h1 : index < usizeBound)
    (h2 : rstart + index < usizeBound) (h3 : rstop + index < usizeBound) :
    range_at index rstart rstop = .ok (rstart + index, rstop + index) := by
  unfold range_at
  rw [if_pos]
  exact ⟨h1, by omega, h2, by omega, h3⟩

/-- A `slice_at` within bounds returns the sub-slice. -/
theorem slice_at_ok (bytes : List Nat) (index rstart rstop : Nat)
    (h1 : rstart ≤ rstop) (h2 : rstop + index ≤ bytes.length) (h3 : bytes.length < usizeBound) :
    slice_at bytes index rstart rstop =
      .ok ((bytes.drop (rstart + index)).take (rstop - rstart)) := by
  have hr : range_at index rstart rstop = .ok (rstart + index, rstop + index) :=
    range_at_ok index rstart rstop (by omega) (by omega) (by omega)
  have hs : sliceGet bytes (rstart + index) (rstop + index) =
      some ((bytes.drop (rstart + index)).take ((rstop + index) - (rstart + index))) :=
    sliceGet_some bytes _ _ (by omega) h2
  have ht : (rstop + index) - (rstart + index) = rstop - rstart := by omega
  rw [ht] at hs
  unfold slice_at
  rw [hr]
  dsimp only
  rw [hs]

/-- C4: `NpyViewMut::update` recomputes the CRC-32 over the current data slice,
writes its little-endian bytes into both the local and the central checksum
field (so the two fields are equal after every update), sets the status to
`Correct`, returns the computed value, and leaves the data unchanged. -/
theorem update_synchronizes_checksum_fields (v : NpyViewMutS) :
    (v.update).1.crc32 = (v.update).1.central_crc32 ∧
    (v.update).1.central_crc32 = toLEBytes4 (crc32_update v.data) ∧
    (v.update).1.status = ChecksumStatus.correct ∧
    (v.update).2 = crc32_update v.data ∧
    fromLEBytes ((v.update).1.central_crc32) = crc32_update v.data ∧
    (v.update).1.data = v.data := by
  refine ⟨rfl, rfl, rfl, rfl, ?_, rfl⟩
  exact fromLE_toLEBytes4 _ (crc32_update_lt v.data)

/-- C5: calling `update` and then immediately `verify` on the same mutable
handle succeeds, returns the very checksum `update` returned, and leaves the
handle (status `Correct` included) unchanged. -/
theorem update_verify_roundtrip (v : NpyViewMutS) :
    ((v.update).1.verify).2 = Except.ok ((v.update).2) ∧
    ((v.update).1.verify).1 = (v.update).1 ∧
    ((v.update).1.verify).1.status = ChecksumStatus.correct := by
  have hc : fromLEBytes (toLEBytes4 (crc32_update v.data)) = crc32_update v.data :=
    fromLE_toLEBytes4 _ (crc32_update_lt v.data)
  unfold NpyViewMutS.update NpyViewMutS.verify crc32_verify
  simp [hc]

/-- C6: `verify` (on both handle variants) pessimistically moves to `Outdated`,
always recomputes the CRC-32 of the data slice, and compares it against the
central checksum field only: on a match the status becomes `Correct` and the
value is returned, on a mismatch the status stays `Outdated` and a checksum
error is returned; the error occurs iff the recomputed checksum differs from
the stored central one, and the outcome never depends on the incoming status
(no short-circuit on a previously `Correct` status). -/
theorem verify_pessimistic_recompute :
    (∀ v : NpyViewMutS,
      (crc32_update v.data = fromLEBytes v.central_crc32 →
        v.verify = ({ v with status := .correct }, .ok (fromLEBytes v.central_crc32))) ∧
      (crc32_update v.data ≠ fromLEBytes v.central_crc32 →
        v.verify = ({ v with status := .outdated }, .error .invalidChecksum)) ∧
      ((v.verify).2 = .error .invalidChecksum ↔
        crc32_update v.data ≠ fromLEBytes v.central_crc32) ∧
      (∀ s : ChecksumStatus,
        (({ v with status := s } : NpyViewMutS).verify).2 = (v.verify).2 ∧
        (({ v with status := s } : NpyViewMutS).verify).1.status = ((v.verify).1).status)) ∧
    (∀ v : NpyViewS,
      (crc32_update v.data = fromLEBytes v.central_crc32 →
        v.verify = ({ v with status := .correct }, .ok (fromLEBytes v.central_crc32))) ∧
      (crc32_update v.data ≠ fromLEBytes v.central_crc32 →
        v.verify = ({ v with status := .outdated }, .error .invalidChecksum)) ∧
      ((v.verify).2 = .error .invalidChecksum ↔
        crc32_update v.data ≠ fromLEBytes v.central_crc32) ∧
      (∀ s : ChecksumStatus,
        (({ v with status := s } : NpyViewS).verify).2 = (v.verify).2 ∧
        (({ v with status := s } : NpyViewS).verify).1.status = ((v.verify).1).status)) := by
  constructor
  · intro v
    unfold NpyViewMutS.verify crc32_verify
    by_cases h : crc32_update v.data = fromLEBytes v.central_crc32 <;> simp [h]
  · intro v
    unfold NpyViewS.verify crc32_verify
    by_cases h : crc32_update v.data = fromLEBytes v.central_crc32 <;> simp [h]

/-- C8: when a mutable handle is dropped, `update` runs iff its status is
`Outdated` at that moment; a handle with status `Unverified` or `Correct` is
left untouched. -/
theorem drop_flushes_iff_outdated (v : NpyViewMutS) :
    (v.status = ChecksumStatus.outdated → v.dropHook = (v.update).1) ∧
    (v.status = ChecksumStatus.unverified ∨ v.status = ChecksumStatus.correct →
      v.dropHook = v) := by
  unfold NpyViewMutS.dropHook
  constructor
  · intro h
    rw [if_pos h]
  · intro h
    rcases h with h | h <;> rw [if_neg (by rw [h]; intro hc; exact absurd hc (by simp))]

/-- C1 (bug evidence): on the successfully constructed empty mutable archive
(`len() = 0`), the out-of-range index `0 = len()` slips past the strict
`index > names.len()` check of `NpzViewMut::by_index` and fails with
`ViewNpzError::MovedNpyViewMut` instead of the documented
`ZipError::FileNotFound`. -/
theorem by_index_at_len_is_moved_bug :
    newM [] [] = Outcome.ok emptyArchiveMut ∧
    emptyArchiveMut.names.length = 0 ∧
    (emptyArchiveMut.by_index 0).2 = Except.error ViewErr.movedNpyViewMut ∧
    ViewErr.movedNpyViewMut ≠ ViewErr.fileNotFound := by
  refine ⟨rfl, rfl, rfl, ?_⟩
  intro h
  exact absurd h (by simp)

/-- C7: a successful retrieval by index or by name removes the handle from the
mutable archive's table (so at most one live mutable handle per entry exists),
and retrieving the same entry a second time fails with
`ViewNpzError::MovedNpyViewMut`. -/
theorem retrieval_moves_handle (a : NpzViewMutS)
    (hnd : (a.files.map Prod.fst).Nodup) :
    (∀ i a1 v, a.by_index i = (a1, Except.ok v) →
      hmGet i a1.files = none ∧ a1.names = a.names ∧
      a1.by_index i = (a1, Except.error ViewErr.movedNpyViewMut)) ∧
    (∀ n a1 v, a.by_name n = (a1, Except.ok v) →
      a1.by_name n = (a1, Except.error ViewErr.movedNpyViewMut)) := by
  have main : ∀ i a1 v, a.by_index i = (a1, Except.ok v) →
      hmGet i a1.files = none ∧ a1.names = a.names ∧
      a1.by_index i = (a1, Except.error ViewErr.movedNpyViewMut) := by
    intro i a1 v h
    unfold NpzViewMutS.by_index at h
    by_cases hlen : a.names.length < i
    · rw [if_pos hlen] at h
      exact absurd h (by simp)
    · rw [if_neg hlen] at h
      cases hrem : hmRemove i a.files with
      | none =>
        rw [hrem] at h
        exact absurd h (by simp)
      | some pair =>
        obtain ⟨v0, files1⟩ := pair
        rw [hrem] at h
        simp only [Prod.mk.injEq, Except.ok.injEq] at h
        obtain ⟨ha1, -⟩ := h
        subst ha1
        have hget : hmGet i files1 = none := hmGet_after_hmRemove i a.files hnd v0 files1 hrem
        refine ⟨hget, rfl, ?_⟩
        unfold NpzViewMutS.by_index
        rw [if_neg hlen, (hmRemove_eq_none_iff i files1).mpr hget]
  refine ⟨main, ?_⟩
  intro n a1 v h
  unfold NpzViewMutS.by_name at h
  cases hg : hmGet n a.names with
  | none =>
    rw [hg] at h
    exact absurd h (by simp)
  | some i =>
    rw [hg] at h
    obtain ⟨hget, hnames, hsecond⟩ := main i a1 v h
    unfold NpzViewMutS.by_name
    rw [hnames, hg]
    exact hsecond

/-- C7 witness: moving the only handle of the concrete one-entry archive out
and asking for it again fails with `MovedNpyViewMut`. -/
theorem retrieval_moves_handle_witness :
    sampleArchiveMutMoved.by_index 0 =
      (sampleArchiveMutMoved, Except.error ViewErr.movedNpyViewMut) :=
  ((retrieval_moves_handle sampleArchiveMut (by decide)).1 0
    sampleArchiveMutMoved sampleViewMut rfl).2.2

/-- The split pass succeeds exactly on valid splits lists: every range starts
at or after the cursor and fits in what remains of the buffer. -/
theorem splitPass_ok_iff (l : List (Nat × Nat)) : ∀ (buf : List Nat) (offset : Nat),
    (∃ m, splitPass buf offset l = Except.ok m) ↔ ValidSplits buf.length offset l := by
  induction l with
  | nil =>
    intro buf offset
    simp [splitPass, ValidSplits]
  | cons p rest ih =>
    intro buf offset
    obtain ⟨s, e⟩ := p
    simp only [ValidSplits]
    by_cases h1 : s < offset
    · simp only [splitPass, if_pos h1]
      constructor
      · rintro ⟨m, hm⟩
        exact absurd hm (by simp)
      · intro h
        omega
    · by_cases h2 : buf.length < s - offset
      · simp only [splitPass, if_neg h1, if_pos h2]
        constructor
        · rintro ⟨m, hm⟩
          exact absurd hm (by simp)
        · intro h
          omega
      · by_cases h3 : (buf.drop (s - offset)).length < e - s
        · simp only [splitPass, if_neg h1, if_neg h2, if_pos h3]
          rw [List.length_drop] at h3
          constructor
          · rintro ⟨m, hm⟩
            exact absurd hm (by simp)
          · intro h
            omega
        · simp only [splitPass, if_neg h1, if_neg h2, if_neg h3]
          rw [List.length_drop] at h3
          have hrec := ih ((buf.drop (s - offset)).drop (e - s)) (s + (e - s))
          simp only [List.length_drop] at hrec
          constructor
          · rintro ⟨m, hm⟩
            cases hr : splitPass ((buf.drop (s - offset)).drop (e - s)) (s + (e - s)) rest with
            | error er =>
              rw [hr] at hm
              exact absurd hm (by simp)
            | ok slices =>
              exact ⟨by omega, by omega, by omega, hrec.mp ⟨slices, hr⟩⟩
          · rintro ⟨-, -, -, hv⟩
            obtain ⟨m, hm⟩ := hrec.mpr hv
            exact ⟨(s, (buf.drop (s - offset)).take (e - s)) :: m, by rw [hm]⟩

/-- C9: in the single split pass over the deduplicated, start-sorted ranges, a
range starting before the cursor fails with `InvalidArchive("Overlapping
ranges")`; a range whose prefix or body extends past the remaining buffer
fails with `InvalidArchive("Offset exceeds EOF")` or `InvalidArchive("Length
exceeds EOF")`; in the reassembly, a missing lookup of an entry's recorded
data, local-checksum, or central-checksum range start fails with
`InvalidArchive("Ambiguous offsets")`; and each of these errors makes
`NpzViewMut::new` return that error with no archive. -/
theorem split_pass_and_reassembly_errors :
    (∀ (buf : List Nat) (offset s e : Nat) (rest : List (Nat × Nat)), s < offset →
      splitPass buf offset ((s, e) :: rest) = Except.error ViewErr.overlappingRanges) ∧
    (∀ (buf : List Nat) (offset s e : Nat) (rest : List (Nat × Nat)),
      offset ≤ s → buf.length < s - offset →
      splitPass buf offset ((s, e) :: rest) = Except.error ViewErr.offsetExceedsEOF) ∧
    (∀ (buf : List Nat) (offset s e : Nat) (rest : List (Nat × Nat)),
      offset ≤ s → s - offset ≤ buf.length → buf.length - (s - offset) < e - s →
      splitPass buf offset ((s, e) :: rest) = Except.error ViewErr.lengthExceedsEOF) ∧
    (∀ (slices : List (Nat × List Nat)) (index : Nat) (r3 : Range3)
        (rest : List (Nat × Range3)), hmGet r3.1.1 slices = none →
      collectViews slices ((index, r3) :: rest) = Outcome.err ViewErr.ambiguousOffsets) ∧
    (∀ (slices : List (Nat × List Nat)) (index : Nat) (dr cr ccr : NRange)
        (rest : List (Nat × Range3)) (d : List Nat) (s1 : List (Nat × List Nat)),
      hmRemove dr.1 slices = some (d, s1) → hmGet cr.1 s1 = none →
      collectViews slices ((index, (dr, cr, ccr)) :: rest) =
        Outcome.err ViewErr.ambiguousOffsets) ∧
    (∀ (slices : List (Nat × List Nat)) (index : Nat) (dr cr ccr : NRange)
        (rest : List (Nat × Range3)) (d : List Nat) (s1 : List (Nat × List Nat))
        (c : List Nat) (s2 : List (Nat × List Nat)) (c4 : List Nat),
      hmRemove dr.1 slices = some (d, s1) → hmRemove cr.1 s1 = some (c, s2) →
      as_array4 c = some c4 → hmGet ccr.1 s2 = none →
      collectViews slices ((index, (dr, cr, ccr)) :: rest) =
        Outcome.err ViewErr.ambiguousOffsets) ∧
    (∀ (bytes : List Nat) (entries : List RawEntry) (st : ScanState) (er : ViewErr),
      scanEntriesM bytes entries (initScan entries) = Outcome.ok st →
      splitPass bytes 0 st.splits = Except.error er →
      newM bytes entries = Outcome.err er) ∧
    (∀ (bytes : List Nat) (entries : List RawEntry) (st : ScanState)
        (slices : List (Nat × List Nat)) (er : ViewErr),
      scanEntriesM bytes entries (initScan entries) = Outcome.ok st →
      splitPass bytes 0 st.splits = Except.ok slices →
      collectViews slices st.ranges = Outcome.err er →
      newM bytes entries = Outcome.err er) := by
  refine ⟨?_, ?_, ?_, ?_, ?_, ?_, ?_, ?_⟩
  · intro buf offset s e rest h
    simp only [splitPass, if_pos h]
  · intro buf offset s e rest h1 h2
    simp only [splitPass, if_neg (by omega : ¬ s < offset), if_pos h2]
  · intro buf offset s e rest h1 h2 h3
    have h4 : (buf.drop (s - offset)).length < e - s := by
      rw [List.length_drop]
      omega
    simp only [splitPass, if_neg (by omega : ¬ s < offset),
      if_neg (by omega : ¬ buf.length < s - offset), if_pos h4]
  · intro slices index r3 rest h
    obtain ⟨dr, cr, ccr⟩ := r3
    have hrem : hmRemove dr.1 slices = none := (hmRemove_eq_none_iff _ _).mpr h
    simp only [collectViews, hrem]
  · intro slices index dr cr ccr rest d s1 h1 h2
    have hrem : hmRemove cr.1 s1 = none := (hmRemove_eq_none_iff _ _).mpr h2
    simp only [collectViews, h1, hrem]
  · intro slices index dr cr ccr rest d s1 c s2 c4 h1 h2 h3 h4
    have hrem : hmRemove ccr.1 s2 = none := (hmRemove_eq_none_iff _ _).mpr h4
    simp only [collectViews, h1, h2, h3, hrem]
  · intro bytes entries st er hscan hsplit
    unfold newM
    rw [hscan]
    dsimp only
    rw [hsplit]
  · intro bytes entries st slices er hscan hsplit hcollect
    unfold newM
    rw [hscan]
    dsimp only
    rw [hsplit]
    dsimp only
    rw [hcollect]

/-- A fixed-width little-endian read returns `none` (panics in the Rust code)
exactly when its range is not `n` bytes inside the buffer. -/
theorem sliceRead_none_iff (bytes : List Nat) (s t n : Nat) :
    ((sliceGet bytes s t).bind fun l => if l.length = n then some (fromLEBytes l) else none)
        = none ↔ ¬ (s ≤ t ∧ t ≤ bytes.length ∧ t = s + n) := by
  unfold sliceGet
  by_cases h : s ≤ t ∧ t ≤ bytes.length
  · rw [if_pos h]
    simp only [Option.some_bind]
    rw [length_drop_take bytes s t h.2]
    by_cases h2 : t - s = n
    · rw [if_pos h2]
      constructor
      · intro hc
        exact absurd hc (by simp)
      · intro hnp
        exact absurd ⟨h.1, h.2, by omega⟩ hnp
    · rw [if_neg h2]
      constructor
      · rintro - ⟨hst, -, ht⟩
        exact h2 (by omega)
      · intro hc
        rfl
  · rw [if_neg h]
    simp only [Option.none_bind]
    constructor
    · rintro - ⟨hst, hlen, -⟩
      exact h ⟨hst, hlen⟩
    · intro hc
      trivial

/-- C3 (amended): `range_at` validates every computed range against `usize`
overflow, failing with `InvalidArchive("Range overflow")`; the split pass
validates ranges against the buffer length, succeeding exactly on valid splits
lists; but the two-byte and four-byte reads used for the flag, the descriptor
signature and the central checksum are unchecked against the buffer length and
panic (`none`) exactly when out of bounds; an error or panic while resolving a
viewable entry aborts the whole scan. -/
theorem range_validation_characterization :
    (∀ index rstart rstop : Nat,
      (index < usizeBound ∧ rstart + index < usizeBound ∧ rstop + index < usizeBound →
        range_at index rstart rstop = Except.ok (rstart + index, rstop + index)) ∧
      (¬ (index < usizeBound ∧ rstart + index < usizeBound ∧ rstop + index < usizeBound) →
        range_at index rstart rstop = Except.error ViewErr.rangeOverflow)) ∧
    (∀ (buf : List Nat) (offset : Nat) (l : List (Nat × Nat)),
      (∃ m, splitPass buf offset l = Except.ok m) ↔ ValidSplits buf.length offset l) ∧
    (∀ (bytes : List Nat) (s t : Nat),
      u16_at bytes s t = none ↔ ¬ (s ≤ t ∧ t ≤ bytes.length ∧ t = s + 2)) ∧
    (∀ (bytes : List Nat) (s t : Nat),
      u32_at bytes s t = none ↔ ¬ (s ≤ t ∧ t ≤ bytes.length ∧ t = s + 4)) ∧
    (∀ (bytes : List Nat) (e : RawEntry) (rest : List RawEntry) (st : ScanState) (er : ViewErr),
      e.viewable → entryRangesM bytes e = Outcome.err er →
      scanEntriesM bytes (e :: rest) st = Outcome.err er) ∧
    (∀ (bytes : List Nat) (e : RawEntry) (rest : List RawEntry) (st : ScanState),
      e.viewable → entryRangesM bytes e = Outcome.panic →
      scanEntriesM bytes (e :: rest) st = Outcome.panic) := by
  refine ⟨?_, fun buf offset l => splitPass_ok_iff l buf offset, ?_, ?_, ?_, ?_⟩
  · intro i rs rt
    constructor
    · rintro ⟨h1, h2, h3⟩
      exact range_at_ok i rs rt h1 h2 h3
    · intro h
      unfold range_at
      rw [if_neg]
      intro hc
      exact h ⟨hc.1, hc.2.2.1, hc.2.2.2.2⟩
  · intro bytes s t
    exact sliceRead_none_iff bytes s t 2
  · intro bytes s t
    exact sliceRead_none_iff bytes s t 4
  · intro bytes e rest st er hv herr
    obtain ⟨hp, hd, hs⟩ := hv
    simp [scanEntriesM, hp, hd, hs, herr]
  · intro bytes e rest st hv herr
    obtain ⟨hp, hd, hs⟩ := hv
    simp [scanEntriesM, hp, hd, hs, herr]

/-- C3 counterexample: construction does not return a `Result` for every
parser-supplied input: on an empty buffer with one stored entry whose central
directory offset is 0, the unchecked flag read `u16_at` hits its `unwrap` and
`NpzViewMut::new` panics instead of returning an error. -/
theorem construction_panic_cex : newM [] [panicEntry] = Outcome.panic := by
  rfl

/-- C2: during mutable construction, for a viewable entry whose flag and
descriptor reads stay inside the buffer, the local checksum range is resolved
from bit 3 of the two-byte little-endian general purpose flag at central entry
offset 8: bit clear gives `[headerStart+14, headerStart+18)`; bit set with the
four bytes at the data end differing from the descriptor signature gives
`[dataEnd, dataEnd+4)`; bit set with those bytes spelling the signature and
also equalling the central checksum fails with `AmbiguousChecksumLocation`;
bit set with the signature but a different central checksum gives
`[dataEnd+4, dataEnd+8)`. -/
theorem checksum_location_resolution (bytes : List Nat) (e : RawEntry)
    (hbl : bytes.length < usizeBound)
    (hhdr : e.headerStart + 18 < usizeBound)
    (hflag : e.centralHeaderStart + 20 ≤ bytes.length)
    (hdesc : e.dataStart + e.size + 8 ≤ bytes.length) :
    ((fromLEBytes ((bytes.drop (e.centralHeaderStart + 8)).take 2)).testBit 3 = false →
      entryRangesM bytes e = Outcome.ok ((e.dataStart, e.dataStart + e.size),
        (e.headerStart + 14, e.headerStart + 18),
        (e.centralHeaderStart + 16, e.centralHeaderStart + 20))) ∧
    ((fromLEBytes ((bytes.drop (e.centralHeaderStart + 8)).take 2)).testBit 3 = true →
      fromLEBytes ((bytes.drop (e.dataStart + e.size)).take 4) ≠ descriptorSignature →
      entryRangesM bytes e = Outcome.ok ((e.dataStart, e.dataStart + e.size),
        (e.dataStart + e.size, e.dataStart + e.size + 4),
        (e.centralHeaderStart + 16, e.centralHeaderStart + 20))) ∧
    ((fromLEBytes ((bytes.drop (e.centralHeaderStart + 8)).take 2)).testBit 3 = true →
      fromLEBytes ((bytes.drop (e.dataStart + e.size)).take 4) = descriptorSignature →
      fromLEBytes ((bytes.drop (e.centralHeaderStart + 16)).take 4) =
        fromLEBytes ((bytes.drop (e.dataStart + e.size)).take 4) →
      entryRangesM bytes e = Outcome.err ViewErr.ambiguousCrc32Location) ∧
    ((fromLEBytes ((bytes.drop (e.centralHeaderStart + 8)).take 2)).testBit 3 = true →
      fromLEBytes ((bytes.drop (e.dataStart + e.size)).take 4) = descriptorSignature →
      fromLEBytes ((bytes.drop (e.centralHeaderStart + 16)).take 4) ≠
        fromLEBytes ((bytes.drop (e.dataStart + e.size)).take 4) →
      entryRangesM bytes e = Outcome.ok ((e.dataStart, e.dataStart + e.size),
        (e.dataStart + e.size + 4, e.dataStart + e.size + 8),
        (e.centralHeaderStart + 16, e.centralHeaderStart + 20))) := by
  have hdR : range_at e.dataStart 0 e.size = Except.ok (e.dataStart, e.dataStart + e.size) := by
    rw [range_at_ok e.dataStart 0 e.size (by omega) (by omega) (by omega)]
    rw [Nat.zero_add, Nat.add_comm e.size e.dataStart]
  have hfR : range_at e.centralHeaderStart 8 10 =
      Except.ok (e.centralHeaderStart + 8, e.centralHeaderStart + 10) := by
    rw [range_at_ok e.centralHeaderStart 8 10 (by omega) (by omega) (by omega)]
    rw [Nat.add_comm 8 e.centralHeaderStart, Nat.add_comm 10 e.centralHeaderStart]
  have hcR : range_at e.centralHeaderStart 16 20 =
      Except.ok (e.centralHeaderStart + 16, e.centralHeaderStart + 20) := by
    rw [range_at_ok e.centralHeaderStart 16 20 (by omega) (by omega) (by omega)]
    rw [Nat.add_comm 16 e.centralHeaderStart, Nat.add_comm 20 e.centralHeaderStart]
  have hu16 : u16_at bytes (e.centralHeaderStart + 8) (e.centralHeaderStart + 10) =
      some (fromLEBytes ((bytes.drop (e.centralHeaderStart + 8)).take 2)) := by
    have h := u16_at_some bytes (e.centralHeaderStart + 8) (by omega)
    rwa [show e.centralHeaderStart + 8 + 2 = e.centralHeaderStart + 10 by omega] at h
  have hhR : range_at e.headerStart 14 18 =
      Except.ok (e.headerStart + 14, e.headerStart + 18) := by
    rw [range_at_ok e.headerStart 14 18 (by omega) (by omega) (by omega)]
    rw [Nat.add_comm 14 e.headerStart, Nat.add_comm 18 e.headerStart]
  have hsR : range_at (e.dataStart + e.size) 0 4 =
      Except.ok (e.dataStart + e.size, e.dataStart + e.size + 4) := by
    rw [range_at_ok (e.dataStart + e.size) 0 4 (by omega) (by omega) (by omega)]
    rw [Nat.zero_add, Nat.add_comm 4 (e.dataStart + e.size)]
  have hu32s : u32_at bytes (e.dataStart + e.size) (e.dataStart + e.size + 4) =
      some (fromLEBytes ((bytes.drop (e.dataStart + e.size)).take 4)) :=
    u32_at_some bytes (e.dataStart + e.size) (by omega)
  have hu32c : u32_at bytes (e.centralHeaderStart + 16) (e.centralHeaderStart + 20) =
      some (fromLEBytes ((bytes.drop (e.centralHeaderStart + 16)).take 4)) := by
    have h := u32_at_some bytes (e.centralHeaderStart + 16) (by omega)
    rwa [show e.centralHeaderStart + 16 + 4 = e.centralHeaderStart + 20 by omega] at h
  have hpR : range_at (e.dataStart + e.size) 4 8 =
      Except.ok (e.dataStart + e.size + 4, e.dataStart + e.size + 8) := by
    rw [range_at_ok (e.dataStart + e.size) 4 8 (by omega) (by omega) (by omega)]
    rw [Nat.add_comm 4 (e.dataStart + e.size), Nat.add_comm 8 (e.dataStart + e.size)]
  refine ⟨?_, ?_, ?_, ?_⟩
  · intro hb
    simp only [entryRangesM, hdR, hfR, hu16, hcR, hhR, hb]
    simp
  · intro hb hsig
    simp only [entryRangesM, hdR, hfR, hu16, hcR, hsR, hu32s, hb]
    simp [hsig]
  · intro hb hsig hcen
    simp only [entryRangesM, hdR, hfR, hu16, hcR, hsR, hu32s, hu32c, hb]
    simp [hsig, hsig ▸ hcen]
  · intro hb hsig hcen
    have hne : ¬ (descriptorSignature =
        fromLEBytes ((bytes.drop (e.centralHeaderStart + 16)).take 4)) := by
      intro hc
      exact hcen (by rw [hsig, hc])
    simp [entryRangesM, hdR, hfR, hu16, hcR, hsR, hu32s, hu32c, hpR, hb, hsig, hne]

/-- C2 witness: on the concrete 24-byte buffer whose entry has flag bit 3 set,
descriptor bytes spelling the signature and a colliding central checksum, the
range resolution fails with the ambiguity error. -/
theorem checksum_location_resolution_witness :
    entryRangesM ambBytes ambEntry = Outcome.err ViewErr.ambiguousCrc32Location :=
  (checksum_location_resolution ambBytes ambEntry (by norm_num [ambBytes, usizeBound])
    (by norm_num [ambEntry, usizeBound]) (by norm_num [ambBytes, ambEntry])
    (by norm_num [ambBytes, ambEntry])).2.2.1 (by decide) (by decide) (by decide)

/-- The errors of `slice_at` are range overflow or range-exceeds-EOF only. -/
theorem slice_at_error_cases (bytes : List Nat) (index rstart rstop : Nat) (er : ViewErr)
    (h : slice_at bytes index rstart rstop = Except.error er) :
    er = ViewErr.rangeOverflow ∨ er = ViewErr.rangeExceedsEOF := by
  unfold slice_at range_at at h
  by_cases hc : index < usizeBound ∧ rstart < usizeBound ∧ rstart + index < usizeBound
      ∧ rstop < usizeBound ∧ rstop + index < usizeBound
  · rw [if_pos hc] at h
    dsimp only at h
    cases hs : sliceGet bytes (rstart + index) (rstop + index) with
    | some l => rw [hs] at h; exact absurd h (by simp)
    | none => rw [hs] at h; simp only [Except.error.injEq] at h; exact Or.inr h.symm
  · rw [if_neg hc] at h
    simp only [Except.error.injEq] at h
    exact Or.inl h.symm

/-- The immutable scan loop never reports the checksum-location ambiguity. -/
theorem scanEntriesI_ne_ambiguous (bytes : List Nat) (entries : List RawEntry) :
    ∀ (a : NpzViewS) (index : Nat),
      scanEntriesI bytes entries a index ≠ Outcome.err ViewErr.ambiguousCrc32Location := by
  induction entries with
  | nil =>
    intro a index
    simp [scanEntriesI]
  | cons e rest ih =>
    intro a index
    cases hp : e.passwordRequired with
    | true =>
      simp only [scanEntriesI, hp, if_pos rfl]
      exact ih _ _
    | false =>
      cases hd : e.isDir with
      | true =>
        simp only [scanEntriesI, hp, hd, Bool.false_eq_true, if_false, if_pos rfl]
        exact ih _ _
      | false =>
        cases hs : e.isStored with
        | false =>
          simp only [scanEntriesI, hp, hd, hs, Bool.false_eq_true, if_false, if_pos rfl]
          exact ih _ _
        | true =>
          simp only [scanEntriesI, hp, hd, hs, Bool.false_eq_true, Bool.true_eq_false,
            if_false]
          cases h1 : slice_at bytes e.dataStart 0 e.size with
          | error er =>
            simp only [h1]
            intro hc
            simp only [Outcome.err.injEq] at hc
            rcases slice_at_error_cases bytes e.dataStart 0 e.size er h1 with h | h <;>
              simp [h] at hc
          | ok dataSlice =>
            cases h2 : slice_at bytes e.centralHeaderStart 16 20 with
            | error er =>
              simp only [h1, h2]
              intro hc
              simp only [Outcome.err.injEq] at hc
              rcases slice_at_error_cases bytes e.centralHeaderStart 16 20 er h2 with h | h <;>
                simp [h] at hc
            | ok centralSlice =>
              cases h3 : as_array4 centralSlice with
              | none => simp [h1, h2, h3]
              | some centralArr =>
                simp only [h1, h2, h3]
                exact ih _ _

/-- The immutable scan loop succeeds whenever every viewable entry's data and
central-checksum ranges lie inside the buffer. -/
theorem scanEntriesI_ok (bytes : List Nat) (entries : List RawEntry)
    (hbl : bytes.length < usizeBound)
    (hin : ∀ e ∈ entries, e.viewable →
      e.dataStart + e.size ≤ bytes.length ∧ e.centralHeaderStart + 20 ≤ bytes.length) :
    ∀ (a : NpzViewS) (index : Nat), ∃ a2, scanEntriesI bytes entries a index = Outcome.ok a2 := by
  induction entries with
  | nil =>
    intro a index
    exact ⟨a, rfl⟩
  | cons e rest ih =>
    have hrest : ∀ x ∈ rest, x.viewable →
        x.dataStart + x.size ≤ bytes.length ∧ x.centralHeaderStart + 20 ≤ bytes.length :=
      fun x hx => hin x (List.mem_cons_of_mem _ hx)
    intro a index
    cases hp : e.passwordRequired with
    | true =>
      simp only [scanEntriesI, hp, if_pos rfl]
      exact ih hrest _ _
    | false =>
      cases hd : e.isDir with
      | true =>
        simp only [scanEntriesI, hp, hd]
        simp only [Bool.false_eq_true, if_false, if_pos rfl]
        exact ih hrest _ _
      | false =>
        cases hs : e.isStored with
        | false =>
          simp only [scanEntriesI, hp, hd, hs]
          simp only [Bool.false_eq_true, if_false, if_pos rfl]
          exact ih hrest _ _
        | true =>
          have hb := hin e (List.mem_cons_self e rest) ⟨hp, hd, hs⟩
          have h1 : slice_at bytes e.dataStart 0 e.size =
              Except.ok ((bytes.drop (0 + e.dataStart)).take (e.size - 0)) :=
            slice_at_ok bytes e.dataStart 0 e.size (by omega) (by omega) hbl
          have h2 : slice_at bytes e.centralHeaderStart 16 20 =
              Except.ok ((bytes.drop (16 + e.centralHeaderStart)).take (20 - 16)) :=
            slice_at_ok bytes e.centralHeaderStart 16 20 (by omega) (by omega) hbl
          have hlen : ((bytes.drop (16 + e.centralHeaderStart)).take (20 - 16)).length = 4 := by
            have h := length_drop_take bytes (16 + e.centralHeaderStart)
              (20 + e.centralHeaderStart) (by omega)
            rw [show 20 + e.centralHeaderStart - (16 + e.centralHeaderStart) = 20 - 16
              by omega] at h
            rw [h]
          have h3 : as_array4 ((bytes.drop (16 + e.centralHeaderStart)).take (20 - 16)) =
              some ((bytes.drop (16 + e.centralHeaderStart)).take (20 - 16)) := by
            unfold as_array4
            rw [if_pos hlen]
          simp only [scanEntriesI, hp, hd, hs, h1, h2, h3]
          simp only [Bool.false_eq_true, Bool.true_eq_false, if_false, if_pos rfl]
          exact ih hrest _ _

/-- C10 (amended): immutable construction never resolves the local checksum
location and can never fail with the `AmbiguousChecksumLocation` ambiguity; it
succeeds whenever every viewable entry's data and central-checksum ranges lie
inside the buffer (in particular on the concrete buffer whose mutable
construction fails with the ambiguity); and `verify` on an immutable handle
compares only against the central checksum field. -/
theorem immutable_never_ambiguous :
    (∀ (bytes : List Nat) (entries : List RawEntry),
      newI bytes entries ≠ Outcome.err ViewErr.ambiguousCrc32Location) ∧
    (∀ (bytes : List Nat) (entries : List RawEntry), bytes.length < usizeBound →
      (∀ e ∈ entries, e.viewable →
        e.dataStart + e.size ≤ bytes.length ∧ e.centralHeaderStart + 20 ≤ bytes.length) →
      ∃ a, newI bytes entries = Outcome.ok a) ∧
    newM ambBytes [ambEntry] = Outcome.err ViewErr.ambiguousCrc32Location ∧
    (∃ a, newI ambBytes [ambEntry] = Outcome.ok a) ∧
    (∀ v : NpyViewS, (v.verify).2 = crc32_verify v.data v.central_crc32) := by
  refine ⟨?_, ?_, rfl, ?_, ?_⟩
  · intro bytes entries
    exact scanEntriesI_ne_ambiguous bytes entries _ _
  · intro bytes entries hbl hin
    exact scanEntriesI_ok bytes entries hbl hin _ _
  · exact ⟨ambArchiveI, by decide⟩
  · intro v
    unfold NpyViewS.verify
    cases h : crc32_verify v.data v.central_crc32 with
    | ok c => simp [h]
    | error er => simp [h]

/-- C10 counterexample: a buffer whose mutable construction fails with the
ambiguity does not always construct as an immutable view: with a first entry
whose data range lies beyond the buffer (unchecked by the mutable scan) and a
second, ambiguous entry, the mutable construction fails with
`AmbiguousChecksumLocation` while the immutable construction fails with
`InvalidArchive("Range exceeds EOF")` instead of succeeding. -/
theorem immutable_not_always_ok_cex :
    newM ambBytes [oobEntry, ambEntry] = Outcome.err ViewErr.ambiguousCrc32Location ∧
    newI ambBytes [oobEntry, ambEntry] = Outcome.err ViewErr.rangeExceedsEOF ∧
    (∀ a : NpzViewS, newI ambBytes [oobEntry, ambEntry] ≠ Outcome.ok a) := by
  refine ⟨rfl, rfl, ?_⟩
  intro a h
  simp only [show newI ambBytes [oobEntry, ambEntry] = Outcome.err ViewErr.rangeExceedsEOF
    from rfl] at h
  exact absurd h (by simp)

end NdarrayNpz
